import Mathlib

/-!
Verification of the BreakDancer streaming breakpoint engine
(src/lib/breakdancer/BreakDancer.cpp, BreakDancer.hpp).

Shallow embedding: each C++ function relevant to the checked claims is
translated into an executable Lean definition.  Machine `int` values are
modelled as `Int` (no overflow is relevant to any claim: all quantities
stay tiny), `float` quantities as `Rat`, `std::map`/`std::set` as
association lists in iteration order, and the transcendental calls
(`log`, Poisson / chi-squared tails) as oracle parameters, since only
their call structure - never their numeric values - decides a claim.
-/

namespace Breakdancer

/-- The pair-orientation flag set of `breakdancer::pair_orientation_flag`
(see spec section 3; values used by BreakDancer.cpp). -/
inductive PairFlag where
  | NA
  | NORMAL_FR
  | NORMAL_RF
  | ARP_FR_big_insert
  | ARP_FR_small_insert
  | ARP_RF
  | ARP_FF
  | ARP_RR
  | ARP_CTX
  | MATE_UNMAPPED
  | UNMAPPED
deriving DecidableEq, Repr

open PairFlag

/-- BreakDancer.cpp line 181-183: long-insert rule
`if(abs_isize > uppercutoff && bdflag == NORMAL_RF) set_bdflag(ARP_RF)`. -/
def liRule1 (i u : Int) (f : PairFlag) : PairFlag :=
  if i > u ∧ f = NORMAL_RF then ARP_RF else f

/-- BreakDancer.cpp line 184-186: long-insert rule
`if(abs_isize < uppercutoff && bdflag == ARP_RF) set_bdflag(NORMAL_RF)`. -/
def liRule2 (i u : Int) (f : PairFlag) : PairFlag :=
  if i < u ∧ f = ARP_RF then NORMAL_RF else f

/-- BreakDancer.cpp line 187-189: long-insert rule
`if(abs_isize < lowercutoff && bdflag == NORMAL_RF) set_bdflag(ARP_FR_small_insert)`. -/
def liRule3 (i l : Int) (f : PairFlag) : PairFlag :=
  if i < l ∧ f = NORMAL_RF then ARP_FR_small_insert else f

/-- BreakDancer.cpp line 192-194: short-insert rule
`if(abs_isize > uppercutoff && bdflag == NORMAL_FR) set_bdflag(ARP_FR_big_insert)`. -/
def siRule1 (i u : Int) (f : PairFlag) : PairFlag :=
  if i > u ∧ f = NORMAL_FR then ARP_FR_big_insert else f

/-- BreakDancer.cpp line 195-197: short-insert rule
`if(abs_isize < uppercutoff && bdflag == ARP_FR_big_insert) set_bdflag(NORMAL_FR)`. -/
def siRule2 (i u : Int) (f : PairFlag) : PairFlag :=
  if i < u ∧ f = ARP_FR_big_insert then NORMAL_FR else f

/-- BreakDancer.cpp line 198-200: short-insert rule
`if(abs_isize < lowercutoff && bdflag == NORMAL_FR) set_bdflag(ARP_FR_small_insert)`. -/
def siRule3 (i l : Int) (f : PairFlag) : PairFlag :=
  if i < l ∧ f = NORMAL_FR then ARP_FR_small_insert else f

/-- BreakDancer.cpp line 201-203: short-insert rule
`if(bdflag == NORMAL_RF) set_bdflag(ARP_RF)`. -/
def siRule4 (f : PairFlag) : PairFlag :=
  if f = NORMAL_RF then ARP_RF else f

/-- BreakDancer.cpp line 206-208: `if(bdflag == ARP_RR) set_bdflag(ARP_FF)`
("This makes FF and RR the same thing"). -/
def rrFold (f : PairFlag) : PairFlag :=
  if f = ARP_RR then ARP_FF else f

/-- The insert-size / orientation reclassification of `BreakDancer::push_read`,
BreakDancer.cpp lines 180-208: the sequential flag rewrites in long-insert
(`_opts.Illumina_long_insert`) mode or short-insert mode, followed by the
`ARP_RR -> ARP_FF` fold.  `absIsize` is `aln.abs_isize()`, `upper`/`lower`
are `lib_config.uppercutoff` / `lib_config.lowercutoff`.  The rewrites are
applied in program order to a mutable flag, exactly as in the source. -/
def reclassify (longInsert : Bool) (absIsize upper lower : Int) (f : PairFlag) : PairFlag :=
  rrFold
    (if longInsert then
       liRule3 absIsize lower (liRule2 absIsize upper (liRule1 absIsize upper f))
     else
       siRule4 (siRule3 absIsize lower (siRule2 absIsize upper (siRule1 absIsize upper f))))

/-- Closed-form result of the long-insert reclassification chain, proved
equal to `reclassify true` in `recl_long_eq` (proof device only). -/
def longOut (i u l : Int) (f : PairFlag) : PairFlag :=
  match f with
  | NORMAL_RF => if i > u then ARP_RF else if i < l then ARP_FR_small_insert else NORMAL_RF
  | ARP_RF => if i < u then (if i < l then ARP_FR_small_insert else NORMAL_RF) else ARP_RF
  | ARP_RR => ARP_FF
  | g => g

/-- Closed-form result of the short-insert reclassification chain, proved
equal to `reclassify false` in `recl_short_eq` (proof device only). -/
def shortOut (i u l : Int) (f : PairFlag) : PairFlag :=
  match f with
  | NORMAL_FR => if i > u then ARP_FR_big_insert else if i < l then ARP_FR_small_insert else NORMAL_FR
  | ARP_FR_big_insert => if i < u then (if i < l then ARP_FR_small_insert else NORMAL_FR) else ARP_FR_big_insert
  | NORMAL_RF => ARP_RF
  | ARP_RR => ARP_FF
  | g => g

lemma recl_long_eq (i u l : Int) (f : PairFlag) :
    reclassify true i u l f = longOut i u l f := by
  cases f <;>
    simp [reclassify, liRule1, liRule2, liRule3, rrFold, longOut] <;>
    (try split_ifs) <;> first | rfl | omega | simp_all

lemma recl_short_eq (i u l : Int) (f : PairFlag) :
    reclassify false i u l f = shortOut i u l f := by
  cases f <;>
    simp [reclassify, siRule1, siRule2, siRule3, siRule4, rrFold, shortOut] <;>
    (try split_ifs) <;> first | rfl | omega | simp_all

/-- Claim C5 counterexample: in long-insert mode a read with flag `ARP_RF`
and `|isize|` exactly equal to the library's upper cutoff (here 600) is NOT
reassigned to `NORMAL_RF` - line 184 of BreakDancer.cpp tests
`abs_isize() < uppercutoff` strictly, so the boundary read keeps `ARP_RF`.
This refutes the claim that `|isize| <= upper` suffices. -/
theorem c5_counterexample :
    (600 : Int) ≤ 600 ∧ reclassify true 600 600 400 ARP_RF ≠ NORMAL_RF := by
  constructor
  · decide
  · decide

/-- Claim C5 (amended): in long-insert mode an `ARP_RF` read is reassigned
exactly when `|isize|` is strictly below the upper cutoff - it becomes
`NORMAL_RF`, or `ARP_FR_small_insert` when `|isize|` is also strictly below
the lower cutoff - while a read with `|isize|` at or above the upper cutoff
(in particular exactly at it) keeps `ARP_RF` and stays discordant. -/
theorem c5_long_insert_rf_reclass (i u l : Int) :
    (i < u → reclassify true i u l ARP_RF =
      (if i < l then ARP_FR_small_insert else NORMAL_RF))
    ∧ (u ≤ i → reclassify true i u l ARP_RF = ARP_RF) := by
  constructor
  · intro h
    rw [recl_long_eq]
    simp only [longOut]
    rw [if_pos h]
  · intro h
    rw [recl_long_eq]
    simp only [longOut]
    rw [if_neg (by omega)]

/-- Claim C5 amended-theorem witness at a concrete input: with
upper = 600, lower = 400, an `ARP_RF` read with `|isize| = 500 < 600` is
reassigned to `NORMAL_RF`, and one with `|isize| = 600` keeps `ARP_RF`. -/
theorem c5_long_insert_rf_reclass_witness :
    reclassify true 500 600 400 ARP_RF = NORMAL_RF ∧
    reclassify true 600 600 400 ARP_RF = ARP_RF := by
  refine ⟨?_, ?_⟩
  · have h := (c5_long_insert_rf_reclass 500 600 400).1 (by decide)
    simpa using h
  · exact (c5_long_insert_rf_reclass 600 600 400).2 (by decide)

/-- Claim C8: the flag reclassification of `push_read` (the insert-size
rules of lines 180-204 together with the `ARP_RR -> ARP_FF` fold of lines
206-208) is idempotent: applying it a second time, with the same library
cutoffs and mode, to the flag produced by the first application leaves the
flag unchanged - in both long-insert and short-insert mode, for every flag
and every combination of `|isize|` and cutoffs. -/
theorem c8_reclassify_idempotent (m : Bool) (i u l : Int) (f : PairFlag) :
    reclassify m i u l (reclassify m i u l f) = reclassify m i u l f := by
  cases m <;> cases f <;>
    simp only [recl_long_eq, recl_short_eq, longOut, shortOut] <;>
    (try split_ifs) <;>
    (try simp only [longOut, shortOut]) <;>
    first | rfl | omega

/-- A read alignment record (`breakdancer::Read`), restricted to the fields
BreakDancer.cpp reads: `tid()`, `pos()`, `isize()`, `query_length()`,
`bdqual()`, `query_name()` (modelled as a natural number), `ori()`
(`true` = FWD), emptiness of `query_sequence()` / `quality_string()`, and
the pair-orientation flag `bdflag()`. -/
structure BDRead where
  tid : Int
  pos : Int
  isize : Int
  query_length : Int
  bdqual : Int
  query_name : Nat
  ori_fwd : Bool
  seq_empty : Bool
  qual_empty : Bool
  bdflag : PairFlag
deriving DecidableEq, Repr

/-- The `Options` fields BreakDancer.cpp consults in the modelled code paths
(`_opts.min_len`, `_opts.seq_coverage_lim`, `_opts.buffer_size`,
`_opts.min_read_pair`, `_opts.score_threshold`).  `seq_coverage_lim` is a
C++ float, modelled as a rational. -/
structure BDOptions where
  min_len : Int
  seq_coverage_lim : ℚ
  buffer_size : Int
  min_read_pair : Int
  score_threshold : Int
deriving DecidableEq, Repr

/-- A region registered in the store by `_rdata.add_region(...)`
(BreakDancer.cpp line 267): start tid, start pos, end pos, the normal-read
count and the owned reads, exactly the arguments passed at line 267. -/
structure RegRegion where
  start_tid : Int
  start_pos : Int
  end_pos : Int
  nnormal_reads : Int
  reads : List BDRead
deriving DecidableEq, Repr

/-- The sweep state of `class BreakDancer` (BreakDancer.hpp lines 76-87)
relevant to `push_read` / `process_breakpoint`: the accumulator scalars,
the open-region bounds, the current-region read buffer, plus the effects on
`_rdata` that those functions trigger - `store_regions` models the regions
registered by `add_region`, `released` the reads handed to
`collapse_accumulated_data_into_last_region` (whose reads are released, per
the spec), and `flush_count` counts `build_connection` invocations. -/
structure SweepState where
  collecting_normal_reads : Bool
  nnormal_reads : Int
  ntotal_nucleotides : Int
  max_readlen : Int
  buffer_size : Int
  region_start_tid : Int
  region_start_pos : Int
  region_end_tid : Int
  region_end_pos : Int
  reads_in_current_region : List BDRead
  store_regions : List RegRegion
  released : List BDRead
  flush_count : Nat
deriving DecidableEq, Repr

/-- The constructor state of `BreakDancer` (BreakDancer.cpp lines 101-111):
all accumulators zero, all region bounds `-1`, empty buffers. -/
def initSweep : SweepState :=
  ⟨false, 0, 0, 0, 0, -1, -1, -1, -1, [], [], [], 0⟩

/-- `seq_coverage` of `BreakDancer::process_breakpoint` (line 260):
`_ntotal_nucleotides / float(_region_end_pos - _region_start_pos + 1 + _max_readlen)`,
with the float quotient modelled as a rational. -/
def seq_coverage (s : SweepState) : ℚ :=
  (s.ntotal_nucleotides : ℚ) /
    (((s.region_end_pos - s.region_start_pos + 1 + s.max_readlen : Int) : ℚ))

/-- `BreakDancer::process_breakpoint` (BreakDancer.cpp lines 257-279).
If the span exceeds `min_len` and the coverage is below
`seq_coverage_lim`, the open region is registered via `add_region` with its
bounds, normal-read count and reads, and `_buffer_size` is incremented
(triggering `build_connection` and a reset when it exceeds
`opts.buffer_size`); otherwise the accumulated data is collapsed into the
last surviving region (`collapse_accumulated_data_into_last_region`
releases the current region's reads - that callee lives in
ReadRegionData, not in src/, and is modelled from the spec here as
releasing `reads_in_current_region`). -/
def process_breakpoint (opts : BDOptions) (s : SweepState) : SweepState :=
  if s.region_end_pos - s.region_start_pos > opts.min_len ∧
      seq_coverage s < opts.seq_coverage_lim then
    let s1 := { s with
      store_regions := s.store_regions ++
        [⟨s.region_start_tid, s.region_start_pos, s.region_end_pos,
          s.nnormal_reads, s.reads_in_current_region⟩],
      buffer_size := s.buffer_size + 1 }
    if s1.buffer_size > opts.buffer_size then
      { s1 with flush_count := s1.flush_count + 1, buffer_size := 0 }
    else s1
  else
    { s with released := s.released ++ s.reads_in_current_region }

/-- BreakDancer.cpp lines 220-223: while `_collecting_normal_reads`,
accumulate `_ntotal_nucleotides` and `_max_readlen` from the discordant
read. -/
def accumulate_nucleotides (s : SweepState) (aln : BDRead) : SweepState :=
  if s.collecting_normal_reads then
    { s with ntotal_nucleotides := s.ntotal_nucleotides + aln.query_length,
             max_readlen := max s.max_readlen aln.query_length }
  else s

/-- BreakDancer.cpp line 227: the `do_break` test
`aln.tid() != _region_end_tid || aln.pos() - _region_end_pos > _max_read_window_size`. -/
def do_break (w : Int) (s : SweepState) (aln : BDRead) : Prop :=
  aln.tid ≠ s.region_end_tid ∨ aln.pos - s.region_end_pos > w

instance (w : Int) (s : SweepState) (aln : BDRead) : Decidable (do_break w s aln) := by
  unfold do_break
  infer_instance

/-- BreakDancer.cpp lines 229-242: on a break, flush via
`process_breakpoint` and reset the open-region state to start at the
incoming read. -/
def break_region (opts : BDOptions) (s : SweepState) (aln : BDRead) : SweepState :=
  let sb : SweepState := process_breakpoint opts s
  { sb with region_start_tid := aln.tid, region_start_pos := aln.pos,
            reads_in_current_region := [],
            collecting_normal_reads := false, nnormal_reads := 0,
            max_readlen := 0, ntotal_nucleotides := 0 }

/-- BreakDancer.cpp line 244: append the read to the current region buffer. -/
def append_read (s : SweepState) (aln : BDRead) : SweepState :=
  { s with reads_in_current_region := s.reads_in_current_region ++ [aln] }

/-- BreakDancer.cpp lines 247-248: the first read of a region flips
`_collecting_normal_reads`. -/
def set_collecting (s : SweepState) : SweepState :=
  if s.reads_in_current_region.length = 1 then
    { s with collecting_normal_reads := true }
  else s

/-- BreakDancer.cpp lines 249-250: record the read as the region end. -/
def set_region_end (s : SweepState) (aln : BDRead) : SweepState :=
  { s with region_end_tid := aln.tid, region_end_pos := aln.pos }

/-- `BreakDancer::push_read` from line 213 on (BreakDancer.cpp lines
213-254), i.e. after the flag reclassification and early drops: the
NORMAL_* counting branch (lines 213-218), then for discordant reads the
nucleotide/readlen accumulation, the `do_break` test, the breakpoint flush
and state reset, the append of the read and the region-end update, in
program order.  `w` is `_max_read_window_size`.  The
`_rdata.clear_region_accumulator()` calls (lines 240-241, 252) touch only
graph scratch state not modelled here. -/
def push_read (opts : BDOptions) (w : Int) (s : SweepState) (aln : BDRead) : SweepState :=
  if aln.bdflag = NORMAL_FR ∨ aln.bdflag = NORMAL_RF then
    if s.collecting_normal_reads ∧ aln.isize > 0 then
      { s with nnormal_reads := s.nnormal_reads + 1 }
    else s
  else
    let s0 : SweepState := accumulate_nucleotides s aln
    let s1 : SweepState := if do_break w s0 aln then break_region opts s0 aln else s0
    set_region_end (set_collecting (append_read s1 aln)) aln

/-- The sweep over a classified read stream: `push_read` folded from the
constructor state, as driven by `BreakDancer::run`. -/
def runSweep (opts : BDOptions) (w : Int) (reads : List BDRead) : SweepState :=
  reads.foldl (push_read opts w) initSweep

/-- The gap constraint between two consecutive reads of an open region:
same `tid` and position step at most the window size. -/
def gapOk (w : Int) (a b : BDRead) : Prop :=
  b.tid = a.tid ∧ b.pos - a.pos ≤ w

/-- Options used by concrete sweep scenarios (min_len 7, coverage limit
1000, buffer 100, min pairs 2, score threshold 30). -/
def c1opts : BDOptions := ⟨7, 1000, 100, 2, 30⟩

/-- A discordant (ARP_FF) read on tid 0 at position `p`. -/
def c1read (p : Int) : BDRead := ⟨0, p, 1000, 50, 40, 0, true, false, false, ARP_FF⟩

lemma accum_reads (s : SweepState) (aln : BDRead) :
    (accumulate_nucleotides s aln).reads_in_current_region = s.reads_in_current_region := by
  unfold accumulate_nucleotides
  split_ifs <;> rfl

lemma accum_end_tid (s : SweepState) (aln : BDRead) :
    (accumulate_nucleotides s aln).region_end_tid = s.region_end_tid := by
  unfold accumulate_nucleotides
  split_ifs <;> rfl

lemma accum_end_pos (s : SweepState) (aln : BDRead) :
    (accumulate_nucleotides s aln).region_end_pos = s.region_end_pos := by
  unfold accumulate_nucleotides
  split_ifs <;> rfl

lemma set_collecting_reads (s : SweepState) :
    (set_collecting s).reads_in_current_region = s.reads_in_current_region := by
  unfold set_collecting
  split_ifs <;> rfl

/-- The sweep invariant behind the amended claim C1: consecutive reads of
the open region satisfy the gap bound, and the last read of the buffer is
exactly the recorded region end. -/
def SweepInv (w : Int) (s : SweepState) : Prop :=
  List.Chain' (gapOk w) s.reads_in_current_region ∧
  (∀ r, s.reads_in_current_region.getLast? = some r →
    r.tid = s.region_end_tid ∧ r.pos = s.region_end_pos)

lemma push_read_inv (opts : BDOptions) (w : Int) (s : SweepState) (aln : BDRead)
    (h : SweepInv w s) : SweepInv w (push_read opts w s aln) := by
  obtain ⟨hc, hl⟩ := h
  by_cases hn : aln.bdflag = NORMAL_FR ∨ aln.bdflag = NORMAL_RF
  · simp only [push_read, if_pos hn]
    split_ifs <;> exact ⟨hc, hl⟩
  · simp only [push_read, if_neg hn]
    by_cases hb : do_break w (accumulate_nucleotides s aln) aln
    · rw [if_pos hb]
      constructor
      · simp [set_region_end, set_collecting, append_read, break_region]
      · intro r hr
        simp [set_region_end, set_collecting, append_read, break_region] at hr ⊢
        simp [hr]
    · rw [if_neg hb]
      rw [do_break, accum_end_tid, accum_end_pos] at hb
      push_neg at hb
      obtain ⟨hbt, hbp⟩ := hb
      constructor
      · have hrd : (set_region_end (set_collecting (append_read (accumulate_nucleotides s aln) aln)) aln).reads_in_current_region
            = s.reads_in_current_region ++ [aln] := by
          simp [set_region_end, set_collecting_reads, append_read, accum_reads]
        rw [hrd, List.chain'_append]
        refine ⟨hc, List.chain'_singleton aln, ?_⟩
        intro x hx y hy
        simp at hy
        subst hy
        obtain ⟨hxt, hxp⟩ := hl x hx
        exact ⟨by rw [hbt, hxt], by omega⟩
      · intro r hr
        have hrd : (set_region_end (set_collecting (append_read (accumulate_nucleotides s aln) aln)) aln).reads_in_current_region
            = s.reads_in_current_region ++ [aln] := by
          simp [set_region_end, set_collecting_reads, append_read, accum_reads]
        rw [hrd] at hr
        rw [List.getLast?_concat] at hr
        simp at hr
        subst hr
        exact ⟨rfl, rfl⟩

lemma runSweep_inv (opts : BDOptions) (w : Int) (reads : List BDRead) :
    SweepInv w (runSweep opts w reads) := by
  have base : SweepInv w initSweep := by
    constructor
    · simp [initSweep]
    · intro r hr
      simp [initSweep] at hr
  rw [runSweep]
  have gen : ∀ (l : List BDRead) (t : SweepState), SweepInv w t →
      SweepInv w (l.foldl (push_read opts w) t) := by
    intro l
    induction l with
    | nil => intro t ht; exact ht
    | cons a tl ih =>
        intro t ht
        exact ih _ (push_read_inv opts w t a ht)
  exact gen reads initSweep base

/-- Claim C1 counterexample: with `max_read_window_size = 100`, three
discordant reads on the same tid at positions 0, 100, 200 all land in one
open region (each consecutive gap is exactly 100, so `do_break` never
fires after the first read), yet the open region then spans
`region_end_pos - region_start_pos = 200 > 100`.  This refutes the claim
that the open region never spans more than `max_read_window_size`. -/
theorem c1_counterexample :
    ((runSweep c1opts 100 [c1read 0, c1read 100, c1read 200]).reads_in_current_region ≠ [])
    ∧ ¬((runSweep c1opts 100 [c1read 0, c1read 100, c1read 200]).region_end_pos
        - (runSweep c1opts 100 [c1read 0, c1read 100, c1read 200]).region_start_pos ≤ 100) := by
  decide

/-- Claim C1 (amended): `push_read` starts a new region exactly when
`do_break` holds (`read.tid != region_end_tid || read.pos - region_end_pos
> max_read_window_size`, line 227); consequently what is bounded by
`max_read_window_size` while a region is open is each consecutive same-tid
gap between the region's discordant reads (`List.Chain' (gapOk w)`), not
the total span `region_end_pos - region_start_pos`, which may exceed the
window. -/
theorem c1_region_gap_bounded (opts : BDOptions) (w : Int) (reads : List BDRead)
    (s : SweepState) (aln : BDRead) :
    List.Chain' (gapOk w) (runSweep opts w reads).reads_in_current_region
    ∧ (¬(aln.bdflag = NORMAL_FR ∨ aln.bdflag = NORMAL_RF) → do_break w s aln →
        (push_read opts w s aln).reads_in_current_region = [aln])
    ∧ (¬(aln.bdflag = NORMAL_FR ∨ aln.bdflag = NORMAL_RF) → ¬ do_break w s aln →
        (push_read opts w s aln).reads_in_current_region
          = s.reads_in_current_region ++ [aln]) := by
  refine ⟨(runSweep_inv opts w reads).1, ?_, ?_⟩
  · intro hn hb
    have hb2 : do_break w (accumulate_nucleotides s aln) aln := by
      rw [do_break, accum_end_tid, accum_end_pos]
      exact hb
    simp only [push_read, if_neg hn, if_pos hb2]
    simp [set_region_end, set_collecting, append_read, break_region]
  · intro hn hb
    have hb2 : ¬ do_break w (accumulate_nucleotides s aln) aln := by
      rw [do_break, accum_end_tid, accum_end_pos]
      exact hb
    simp only [push_read, if_neg hn, if_neg hb2]
    simp [set_region_end, set_collecting_reads, append_read, accum_reads]

/-- Claim C1 amended-theorem witness: the chain invariant on a concrete
two-read sweep; a break at the very first discordant read (fresh region
`[read]`); and a non-breaking read at distance 50 that is appended to the
open region. -/
theorem c1_region_gap_bounded_witness :
    List.Chain' (gapOk 100) (runSweep c1opts 100 [c1read 0, c1read 100]).reads_in_current_region
    ∧ (push_read c1opts 100 initSweep (c1read 0)).reads_in_current_region = [c1read 0]
    ∧ (push_read c1opts 100 (runSweep c1opts 100 [c1read 0]) (c1read 50)).reads_in_current_region
        = (runSweep c1opts 100 [c1read 0]).reads_in_current_region ++ [c1read 50] :=
  ⟨(c1_region_gap_bounded c1opts 100 [c1read 0, c1read 100] initSweep (c1read 0)).1,
   (c1_region_gap_bounded c1opts 100 [] initSweep (c1read 0)).2.1 (by decide) (by decide),
   (c1_region_gap_bounded c1opts 100 [] (runSweep c1opts 100 [c1read 0]) (c1read 50)).2.2
     (by decide) (by decide)⟩

/-- Claim C2: on every flush, `process_breakpoint` computes
`seq_coverage = ntotal_nucleotides / (region_end_pos - region_start_pos + 1 + max_readlen)`
(line 260), and the region is registered - appended to the store with its
bounds, `nnormal_reads` and reads, incrementing `_buffer_size` (with the
`build_connection` reset when it exceeds `opts.buffer_size`) - if and only
if `region_end_pos - region_start_pos > min_len` and
`seq_coverage < seq_coverage_lim`; otherwise the store is untouched and the
region's reads are released into the previous (last surviving) region's
entry by `collapse_accumulated_data_into_last_region`. -/
theorem c2_flush_register_iff (opts : BDOptions) (s : SweepState) :
    (seq_coverage s = (s.ntotal_nucleotides : ℚ) /
      (((s.region_end_pos - s.region_start_pos + 1 + s.max_readlen : Int) : ℚ)))
    ∧ ((process_breakpoint opts s).store_regions ≠ s.store_regions ↔
        (s.region_end_pos - s.region_start_pos > opts.min_len ∧
         seq_coverage s < opts.seq_coverage_lim))
    ∧ ((s.region_end_pos - s.region_start_pos > opts.min_len ∧
         seq_coverage s < opts.seq_coverage_lim) →
        (process_breakpoint opts s).store_regions = s.store_regions ++
          [⟨s.region_start_tid, s.region_start_pos, s.region_end_pos,
            s.nnormal_reads, s.reads_in_current_region⟩]
        ∧ ((process_breakpoint opts s).buffer_size = s.buffer_size + 1 ∨
            (s.buffer_size + 1 > opts.buffer_size ∧
             (process_breakpoint opts s).buffer_size = 0))
        ∧ (process_breakpoint opts s).released = s.released)
    ∧ (¬(s.region_end_pos - s.region_start_pos > opts.min_len ∧
          seq_coverage s < opts.seq_coverage_lim) →
        (process_breakpoint opts s).store_regions = s.store_regions
        ∧ (process_breakpoint opts s).released
            = s.released ++ s.reads_in_current_region
        ∧ (process_breakpoint opts s).buffer_size = s.buffer_size) := by
  have hcol : ¬(s.region_end_pos - s.region_start_pos > opts.min_len ∧
        seq_coverage s < opts.seq_coverage_lim) →
      (process_breakpoint opts s).store_regions = s.store_regions
      ∧ (process_breakpoint opts s).released
          = s.released ++ s.reads_in_current_region
      ∧ (process_breakpoint opts s).buffer_size = s.buffer_size := by
    intro h
    unfold process_breakpoint
    rw [if_neg h]
    exact ⟨rfl, rfl, rfl⟩
  have hreg : (s.region_end_pos - s.region_start_pos > opts.min_len ∧
        seq_coverage s < opts.seq_coverage_lim) →
      (process_breakpoint opts s).store_regions = s.store_regions ++
        [⟨s.region_start_tid, s.region_start_pos, s.region_end_pos,
          s.nnormal_reads, s.reads_in_current_region⟩]
      ∧ ((process_breakpoint opts s).buffer_size = s.buffer_size + 1 ∨
          (s.buffer_size + 1 > opts.buffer_size ∧
           (process_breakpoint opts s).buffer_size = 0))
      ∧ (process_breakpoint opts s).released = s.released := by
    intro h
    unfold process_breakpoint
    rw [if_pos h]
    dsimp only
    split_ifs with h2
    · exact ⟨rfl, Or.inr ⟨h2, rfl⟩, rfl⟩
    · exact ⟨rfl, Or.inl rfl, rfl⟩
  refine ⟨rfl, ?_, hreg, hcol⟩
  constructor
  · intro hne
    by_contra hcond
    exact hne (hcol hcond).1
  · intro hcond heq
    rw [(hreg hcond).1] at heq
    have hlen := congrArg List.length heq
    simp at hlen

/-- A sweep state with an open region of span 100, 50 accumulated
nucleotides and max read length 50, used to witness the register branch. -/
def c2state : SweepState :=
  { initSweep with region_start_tid := 0, region_start_pos := 0,
                   region_end_tid := 0, region_end_pos := 100,
                   ntotal_nucleotides := 50, max_readlen := 50,
                   nnormal_reads := 3, reads_in_current_region := [c1read 0] }

/-- Claim C2 witness: the register branch fires on `c2state`
(span 100 > 7, coverage 50/151 < 1000) and appends exactly the region
record; the collapse branch fires on the initial state (span 0). -/
theorem c2_flush_register_iff_witness :
    (process_breakpoint c1opts c2state).store_regions
      = c2state.store_regions ++ [⟨0, 0, 100, 3, [c1read 0]⟩]
    ∧ (process_breakpoint c1opts initSweep).released
      = initSweep.released ++ initSweep.reads_in_current_region :=
  ⟨((c2_flush_register_iff c1opts c2state).2.2.1
      (by
        constructor
        · decide
        · norm_num [seq_coverage, c2state, initSweep, c1opts])).1,
   ((c2_flush_register_iff c1opts initSweep).2.2.2 (by decide)).2.1⟩

/-- The slice of `ReadRegionData` (`_rdata`) that `process_sv` touches.
`ReadRegionData` is not under src/; its container shape is modelled from
the spec (section 3 and section 9): `regions` maps a region id to its owned
discordant reads (`region_reads_range` / `remove_reads_in_region_if`
operate on it; absent ids map to the empty list), and `readMap` is the
read-name -> region back-reference map that `erase_read` erases from. -/
structure RegionStore where
  regions : Nat → List BDRead
  readMap : List Nat

/-- The candidate read set of a node set: the concatenation of the
`region_reads_range` of each node, in node order (BreakDancer.cpp lines
372-376). -/
def candReads (st : RegionStore) (snodes : List Nat) : List BDRead :=
  (snodes.map st.regions).flatten

/-- Number of candidate reads carrying query name `n`. -/
def nameCount (rs : List BDRead) (n : Nat) : Nat :=
  (rs.filter (fun r => r.query_name == n)).length

/-- Modelled from the spec: `SvBuilder::observed_reads` (SvBuilder is not
under src/).  Spec section 4.5 marks a read "observed" when its query name
appears twice in the candidate set; the `observed_reads` container that
line 383 of BreakDancer.cpp queries holds the names still awaiting a mate,
i.e. the names appearing exactly once, so that
`observed_reads.count(name) == 0` identifies observed (paired) reads. -/
def observedReads (cands : List BDRead) : List Nat :=
  (cands.map (fun r => r.query_name)).filter (fun n => nameCount cands n == 1)

/-- Modelled from the spec: `SvBuilder::num_pairs` - half the number of
candidate reads whose query name was observed twice (spec section 4.5
step 2). -/
def numPairs (cands : List BDRead) : Nat :=
  (cands.filter (fun r => decide (2 ≤ nameCount cands r.query_name))).length / 2

/-- Modelled from the spec: `SvBuilder::flag_counts[f]` - the number of
observed pairs carrying flag `f` (spec section 4.5 step 1). -/
def flagCounts (cands : List BDRead) (f : PairFlag) : Nat :=
  (cands.filter (fun r =>
    decide (r.bdflag = f) && decide (2 ≤ nameCount cands r.query_name))).length / 2

/-- The fixed flag enumeration used for the dominant-flag tie-break
(spec section 4.5 step 1). -/
def svFlagOrder : List PairFlag :=
  [ARP_FR_big_insert, ARP_FR_small_insert, ARP_RF, ARP_FF, ARP_CTX]

/-- Modelled from the spec: `SvBuilder::flag` - the dominant flag, the
enumeration value with the strictly highest observed-pair count, earlier
enumeration entries winning ties. -/
def dominantFlag (cands : List BDRead) : PairFlag :=
  svFlagOrder.foldl
    (fun best f => if flagCounts cands f > flagCounts cands best then f else best)
    ARP_FR_big_insert

/-- Modelled from the spec: `SvBuilder::reads_to_free` - the spent
evidence, i.e. the query names of the observed pairs, later erased from
the read map by `erase_read` (BreakDancer.cpp lines 537-538). -/
def readsToFree (cands : List BDRead) : List Nat :=
  (cands.filter (fun r => decide (2 ≤ nameCount cands r.query_name))).map
    (fun r => r.query_name)

/-- The predicate of BreakDancer.cpp lines 381-384:
`read_pair.count(read.query_name()) == 0`, i.e. membership count of the
read's name in `svb.observed_reads` is zero. -/
def is_supportive (cands : List BDRead) (r : BDRead) : Bool :=
  (observedReads cands).count r.query_name == 0

/-- `_rdata.remove_reads_in_region_if(i, p)` (callee in ReadRegionData,
not under src/; modelled from its name and spec section 4.5 step 3):
remove from region `i` every read satisfying `p`. -/
def removeReadsInRegionIf (st : RegionStore) (i : Nat) (p : BDRead → Bool) : RegionStore :=
  { st with
    regions := fun j =>
      if j = i then (st.regions i).filter (fun r => !(p r)) else st.regions j }

/-- `_rdata.erase_read(name)` (callee in ReadRegionData, not under src/;
modelled from the spec resource model): drop the name from the
read -> region map. -/
def eraseRead (st : RegionStore) (n : Nat) : RegionStore :=
  { st with readMap := st.readMap.filter (fun m => !(m == n)) }

/-- C++ `int(x)` truncation toward zero on a rational. -/
def ratTrunc (q : ℚ) : Int :=
  if 0 ≤ q then ⌊q⌋ else -⌊-q⌋

/-- The observable outcome of one `process_sv` call: the mutated store,
the updated `free_nodes`, the PhredQ score when the scoring step was
reached (`none` otherwise), the reported pair count
`svb.flag_counts[svb.flag]` when reached, and whether the SV record was
written to the output. -/
structure SvOutcome where
  store : RegionStore
  free_nodes : List Nat
  phredQ : Option Int
  pairs : Option Nat
  written : Bool

/-- `BreakDancer::process_sv` (BreakDancer.cpp lines 368-541) restricted
to its observable effects: collect the candidate reads of `snodes`, remove
the supportive (observed) reads from each source region (lines 386-387),
stop if `num_pairs < min_read_pair` (lines 389-390); otherwise, when
`flag_counts[flag] >= min_read_pair`, compute
`PhredQ_tmp = -10 * LogPvalue / log(10)` and
`PhredQ = PhredQ_tmp > 99 ? 99 : int(PhredQ_tmp + 0.5)` (lines 463-464)
and write the record iff `PhredQ > score_threshold` (line 470); finally
erase `reads_to_free` and insert `snodes` into `free_nodes` (lines
537-540).  `logTen` models the double `log(10)` and `logPvalue` the
`ComputeProbScore` result (modelled separately), both as rationals; the
text of the emitted record (and the BED/FASTQ side outputs, modelled
separately) is not represented. -/
def process_sv (opts : BDOptions) (logTen logPvalue : ℚ) (st : RegionStore)
    (free_nodes : List Nat) (snodes : List Nat) : SvOutcome :=
  let cands : List BDRead := candReads st snodes
  let st1 : RegionStore :=
    snodes.foldl (fun t i => removeReadsInRegionIf t i (is_supportive cands)) st
  if (numPairs cands : Int) < opts.min_read_pair then
    ⟨st1, free_nodes, none, none, false⟩
  else
    let flag := dominantFlag cands
    if (flagCounts cands flag : Int) ≥ opts.min_read_pair then
      let tmp : ℚ := -10 * logPvalue / logTen
      let phred : Int := if tmp > 99 then 99 else ratTrunc (tmp + 1/2)
      let written : Bool := decide (phred > opts.score_threshold)
      let st2 : RegionStore := (readsToFree cands).foldl eraseRead st1
      ⟨st2, free_nodes ++ snodes, some phred, some (flagCounts cands flag), written⟩
    else
      let st2 : RegionStore := (readsToFree cands).foldl eraseRead st1
      ⟨st2, free_nodes ++ snodes, none, none, false⟩

lemma removals_readMap (p : BDRead → Bool) :
    ∀ (l : List Nat) (t : RegionStore),
      (l.foldl (fun t i => removeReadsInRegionIf t i p) t).readMap = t.readMap := by
  intro l
  induction l with
  | nil => intro t; rfl
  | cons a tl ih => intro t; rw [List.foldl_cons, ih]; rfl

lemma removals_regions (p : BDRead → Bool) :
    ∀ (l : List Nat) (t : RegionStore) (i : Nat),
      (l.foldl (fun t j => removeReadsInRegionIf t j p) t).regions i
        = if i ∈ l then (t.regions i).filter (fun r => !(p r)) else t.regions i := by
  intro l
  induction l with
  | nil => intro t i; simp
  | cons a tl ih =>
      intro t i
      rw [List.foldl_cons, ih]
      by_cases hia : i = a
      · subst hia
        by_cases hmem : i ∈ tl <;>
          simp [removeReadsInRegionIf, hmem, List.filter_filter]
      · by_cases hmem : i ∈ tl <;>
          simp [removeReadsInRegionIf, hmem, hia]

lemma erases_regions :
    ∀ (l : List Nat) (t : RegionStore) (i : Nat),
      (l.foldl eraseRead t).regions i = t.regions i := by
  intro l
  induction l with
  | nil => intro t i; rfl
  | cons a tl ih => intro t i; rw [List.foldl_cons, ih]; rfl

/-- Claim C9: when `process_sv` stops because `num_pairs < min_read_pair`
(BreakDancer.cpp lines 389-390), it returns before the `erase_read` loop
(lines 537-538) and before `free_nodes.insert(snodes...)` (line 540): the
whole outcome is the input state with only the region-read removals of
lines 386-387 applied - `free_nodes` is unchanged, the read map that
`erase_read` would have pruned is unchanged, and no score or record is
produced, even though the supportive reads were already removed from the
source regions. -/
theorem c9_early_return_frame (opts : BDOptions) (logTen logp : ℚ) (st : RegionStore)
    (free snodes : List Nat)
    (h : (numPairs (candReads st snodes) : Int) < opts.min_read_pair) :
    process_sv opts logTen logp st free snodes =
      ⟨snodes.foldl
          (fun t i => removeReadsInRegionIf t i (is_supportive (candReads st snodes))) st,
        free, none, none, false⟩
    ∧ (process_sv opts logTen logp st free snodes).store.readMap = st.readMap := by
  have h1 : process_sv opts logTen logp st free snodes =
      ⟨snodes.foldl
          (fun t i => removeReadsInRegionIf t i (is_supportive (candReads st snodes))) st,
        free, none, none, false⟩ := by
    unfold process_sv
    dsimp only
    rw [if_pos h]
  refine ⟨h1, ?_⟩
  rw [h1]
  exact removals_readMap _ snodes st

lemma phred_min (tmp : ℚ) (h : 0 ≤ tmp) :
    (if tmp > 99 then (99 : Int) else ratTrunc (tmp + 1/2)) = min (round tmp) 99 := by
  split_ifs with hgt
  · have h99 : (99 : Int) ≤ round tmp := by
      rw [round_eq]
      refine Int.le_floor.mpr ?_
      push_cast
      linarith
    rw [min_eq_right h99]
  · have hle : tmp ≤ 99 := not_lt.mp hgt
    have htr : ratTrunc (tmp + 1/2) = round tmp := by
      rw [ratTrunc, if_pos (by linarith), round_eq]
    have hfl : (⌊tmp + 1/2⌋ : ℚ) ≤ tmp + 1/2 := Int.floor_le _
    have hlt : (⌊tmp + 1/2⌋ : ℚ) < 100 := by linarith
    have hlt2 : ⌊tmp + 1/2⌋ < 100 := by exact_mod_cast hlt
    have hr : round tmp ≤ 99 := by
      rw [round_eq]
      omega
    rw [htr, min_eq_left hr]

/-- Claim C6: whenever `process_sv` reaches the scoring step (both the
`num_pairs` gate of line 389 and the `flag_counts` gate of line 393 pass),
the computed quality (lines 463-464) equals
`min (round (-10 * LogPvalue / log 10)) 99` - the cap-then-truncate
`PhredQ_tmp > 99 ? 99 : int(PhredQ_tmp + 0.5)` agrees with round-capped-at-99
whenever `LogPvalue <= 0` (always true of a log-probability sum) - so the
reported PhredQ never exceeds 99, and the record is written iff
`PhredQ > score_threshold` (line 470). -/
theorem c6_phred_cap_and_threshold (opts : BDOptions) (logTen logp : ℚ)
    (st : RegionStore) (free snodes : List Nat)
    (hL : 0 < logTen) (hp : logp ≤ 0)
    (h1 : ¬ ((numPairs (candReads st snodes) : Int) < opts.min_read_pair))
    (h2 : (flagCounts (candReads st snodes) (dominantFlag (candReads st snodes)) : Int)
            ≥ opts.min_read_pair) :
    (process_sv opts logTen logp st free snodes).phredQ
        = some (min (round (-10 * logp / logTen)) 99)
    ∧ (∀ q, (process_sv opts logTen logp st free snodes).phredQ = some q → q ≤ 99)
    ∧ ((process_sv opts logTen logp st free snodes).written = true ↔
        min (round (-10 * logp / logTen)) 99 > opts.score_threshold) := by
  have htmp : (0:ℚ) ≤ -10 * logp / logTen := div_nonneg (by linarith) hL.le
  have hkey : (process_sv opts logTen logp st free snodes).phredQ
        = some (min (round (-10 * logp / logTen)) 99)
      ∧ (process_sv opts logTen logp st free snodes).written
        = decide (min (round (-10 * logp / logTen)) 99 > opts.score_threshold) := by
    unfold process_sv
    dsimp only
    rw [if_neg h1, if_pos h2]
    dsimp only
    rw [phred_min _ htmp]
    exact ⟨rfl, rfl⟩
  refine ⟨hkey.1, ?_, ?_⟩
  · intro q hq
    rw [hkey.1] at hq
    have hqe : min (round (-10 * logp / logTen)) 99 = q := by injection hq
    have hle : min (round (-10 * logp / logTen)) 99 ≤ 99 := min_le_right _ _
    omega
  · rw [hkey.2]
    simp

lemma nameCount_pos (cands : List BDRead) (r : BDRead) (hr : r ∈ cands) :
    1 ≤ nameCount cands r.query_name := by
  unfold nameCount
  have hmem : r ∈ cands.filter (fun x => x.query_name == r.query_name) := by
    simp [List.mem_filter, hr]
  have := List.length_pos.mpr (List.ne_nil_of_mem hmem)
  omega

lemma mem_observed_iff (cands : List BDRead) (n : Nat)
    (h : ∃ r ∈ cands, r.query_name = n) :
    n ∈ observedReads cands ↔ nameCount cands n = 1 := by
  unfold observedReads
  rw [List.mem_filter]
  simp only [List.mem_map, beq_iff_eq]
  constructor
  · intro hx
    exact hx.2
  · intro hx
    exact ⟨h, hx⟩

lemma is_supportive_eq (cands : List BDRead) (r : BDRead) (hr : r ∈ cands) :
    is_supportive cands r = decide (2 ≤ nameCount cands r.query_name) := by
  unfold is_supportive
  have hmem := mem_observed_iff cands r.query_name ⟨r, hr, rfl⟩
  have hpos := nameCount_pos cands r hr
  by_cases hc : nameCount cands r.query_name = 1
  · have hin : r.query_name ∈ observedReads cands := hmem.mpr hc
    have hnz : (observedReads cands).count r.query_name ≠ 0 := by
      rw [Ne, List.count_eq_zero]
      simp [hin]
    have h2 : ¬ (2 ≤ nameCount cands r.query_name) := by omega
    simp [hnz, h2]
  · have h2 : 2 ≤ nameCount cands r.query_name := by omega
    have hnotmem : r.query_name ∉ observedReads cands := fun hm => hc (hmem.mp hm)
    have hz : (observedReads cands).count r.query_name = 0 :=
      List.count_eq_zero.mpr hnotmem
    simp [hz, h2]

/-- Claim C4: for every node set passed to `process_sv`, each source region
retains after the call exactly its reads whose query name was NOT observed
(did not appear at least twice in the candidate set) - i.e. the call
removes exactly the observed reads - and these removals (lines 386-387)
precede the pair-count test of line 389, so when
`num_pairs < min_read_pair` the call produces no score and no record while
the removals have already taken effect (the same region equation holds on
that path). -/
theorem c4_removals_before_pair_test (opts : BDOptions) (logTen logp : ℚ)
    (st : RegionStore) (free snodes : List Nat) (i : Nat) (hi : i ∈ snodes) :
    (process_sv opts logTen logp st free snodes).store.regions i
      = (st.regions i).filter
          (fun r => !(decide (2 ≤ nameCount (candReads st snodes) r.query_name)))
    ∧ (((numPairs (candReads st snodes) : Int) < opts.min_read_pair) →
        (process_sv opts logTen logp st free snodes).phredQ = none
        ∧ (process_sv opts logTen logp st free snodes).written = false) := by
  constructor
  · have hreg : (process_sv opts logTen logp st free snodes).store.regions i
        = ((snodes.foldl
            (fun t j => removeReadsInRegionIf t j (is_supportive (candReads st snodes)))
            st).regions i) := by
      unfold process_sv
      dsimp only
      split_ifs <;> dsimp only <;> rw [erases_regions]
    rw [hreg, removals_regions, if_pos hi]
    refine List.filter_congr ?_
    intro r hr
    have hrc : r ∈ candReads st snodes := by
      unfold candReads
      rw [List.mem_flatten]
      exact ⟨st.regions i, List.mem_map_of_mem _ hi, hr⟩
    rw [is_supportive_eq _ r hrc]
  · intro h
    unfold process_sv
    dsimp only
    rw [if_pos h]
    exact ⟨rfl, rfl⟩

/-- A discordant supporting read named `n` with flag `f` (insert size 500,
length 50, quality 40, sequence and quality strings present). -/
def svread (n : Nat) (f : PairFlag) : BDRead :=
  ⟨0, 0, 500, 50, 40, n, true, false, false, f⟩

/-- A store with regions 1 and 2 sharing one read pair (name 7) plus one
unpaired read each (names 8, 9): `num_pairs = 1`. -/
def c4store : RegionStore :=
  ⟨fun j =>
      if j = 1 then [svread 7 ARP_FF, svread 8 ARP_FF]
      else if j = 2 then [svread 7 ARP_FF, svread 9 ARP_FF]
      else [],
   [7, 8, 9]⟩

/-- A store with regions 1 and 2 sharing two read pairs (names 7 and 8):
`num_pairs = 2` and `flag_counts[ARP_FF] = 2`. -/
def c6store : RegionStore :=
  ⟨fun j =>
      if j = 1 then [svread 7 ARP_FF, svread 8 ARP_FF]
      else if j = 2 then [svread 7 ARP_FF, svread 8 ARP_FF]
      else [],
   [7, 8]⟩

/-- Claim C9 witness: on `c4store` with `min_read_pair = 2` only one pair
is observed, so the early return leaves the read map and `free_nodes`
untouched. -/
theorem c9_early_return_frame_witness :
    (process_sv c1opts 2 (-2) c4store [] [1, 2]).store.readMap = c4store.readMap
    ∧ (process_sv c1opts 2 (-2) c4store [] [1, 2]).free_nodes = [] := by
  have h := c9_early_return_frame c1opts 2 (-2) c4store [] [1, 2] (by decide)
  refine ⟨h.2, ?_⟩
  rw [h.1]

/-- Claim C6 witness: on `c6store` both gates pass with `LogPvalue = -2`
and `log 10` modelled as 2, so `PhredQ = min (round 10) 99 = 10`, which is
not above the score threshold 30, so nothing is written. -/
theorem c6_phred_cap_and_threshold_witness :
    (process_sv c1opts 2 (-2) c6store [] [1, 2]).phredQ
        = some (min (round ((-10 : ℚ) * (-2) / 2)) 99)
    ∧ ((process_sv c1opts 2 (-2) c6store [] [1, 2]).written = true ↔
        min (round ((-10 : ℚ) * (-2) / 2)) 99 > c1opts.score_threshold) := by
  have h := c6_phred_cap_and_threshold c1opts 2 (-2) c6store [] [1, 2]
    (by norm_num) (by norm_num) (by decide) (by decide)
  exact ⟨h.1, h.2.2⟩

/-- Claim C4 witness: on `c4store`, region 1 keeps exactly its unpaired
read (name 8), and since `num_pairs = 1 < 2` no score is produced. -/
theorem c4_removals_before_pair_test_witness :
    (process_sv c1opts 2 (-2) c4store [] [1, 2]).store.regions 1
      = (c4store.regions 1).filter
          (fun r => !(decide (2 ≤ nameCount (candReads c4store [1, 2]) r.query_name)))
    ∧ (process_sv c1opts 2 (-2) c4store [] [1, 2]).phredQ = none := by
  have h := c4_removals_before_pair_test c1opts 2 (-2) c4store [] [1, 2] 1 (by decide)
  exact ⟨h.1, (h.2 (by decide)).1⟩

/-- A BED feature as written by the loop at BreakDancer.cpp lines 514-531:
chromosome `tid`, start `pos`, end `pos - query_length - 1` (the signed
subtraction of line 518, kept as-is), score `bdqual * 10`, strand from the
orientation (the query-name/library and color columns are functions of
these fields). -/
structure BedLine where
  tid : Int
  pos : Int
  aln_end : Int
  score : Int
  fwd : Bool
deriving DecidableEq, Repr

/-- The skip test shared by the BED loop (line 516) and `dump_fastq`
(line 548): `query_sequence().empty() || quality_string().empty() ||
bdflag() != flag`. -/
def support_read_skip (flag : PairFlag) (y : BDRead) : Bool :=
  y.seq_empty || y.qual_empty || !(decide (y.bdflag = flag))

/-- The BED features emitted for an SV's supporting reads
(BreakDancer.cpp lines 514-531): one feature per supporting read that
passes the skip test, in order. -/
def bed_lines (flag : PairFlag) (support_reads : List BDRead) : List BedLine :=
  support_reads.filterMap fun y =>
    if support_read_skip flag y then none
    else some ⟨y.tid, y.pos, y.pos - y.query_length - 1, y.bdqual * 10, y.ori_fwd⟩

/-- One iteration of the `dump_fastq` loop (BreakDancer.cpp lines
545-556): skip filtered reads; otherwise emit the read's name with mate
file 1 when the name was already seen (`pairing.count`) and mate file 2 on
first sight, then record the name in `pairing`. -/
def fastq_step (flag : PairFlag) (acc : List (Nat × Nat) × List Nat) (y : BDRead) :
    List (Nat × Nat) × List Nat :=
  if support_read_skip flag y then acc
  else (acc.1 ++ [(y.query_name, if acc.2.contains y.query_name then (1 : Nat) else 2)],
        acc.2 ++ [y.query_name])

/-- `BreakDancer::dump_fastq` (BreakDancer.cpp lines 543-557): the emitted
(query name, mate-file index) records, in order. -/
def dump_fastq (flag : PairFlag) (support_reads : List BDRead) : List (Nat × Nat) :=
  (support_reads.foldl (fastq_step flag) ([], [])).1

/-- A supporting read that is kept by both output paths. -/
def c10good (flag : PairFlag) (y : BDRead) : Bool :=
  !(support_read_skip flag y)

/-- Empty a read's query sequence and quality string, keeping everything
else. -/
def stripSeqQual (y : BDRead) : BDRead :=
  { y with seq_empty := true, qual_empty := true }

lemma nameCount_strip (reads : List BDRead) (n : Nat) :
    nameCount (reads.map stripSeqQual) n = nameCount reads n := by
  unfold nameCount
  induction reads with
  | nil => rfl
  | cons y tl ih =>
      by_cases hy : y.query_name == n <;>
        simp [stripSeqQual, List.filter_cons, hy] <;> omega

lemma fastq_fold_filter (flag : PairFlag) :
    ∀ (reads : List BDRead) (acc : List (Nat × Nat) × List Nat),
      reads.foldl (fastq_step flag) acc
        = (reads.filter (c10good flag)).foldl (fastq_step flag) acc := by
  intro reads
  induction reads with
  | nil => intro acc; rfl
  | cons y tl ih =>
      intro acc
      by_cases hs : support_read_skip flag y = true
      · have hstep : fastq_step flag acc y = acc := by
          unfold fastq_step
          rw [if_pos hs]
        simp [List.filter_cons, c10good, hs, hstep, ih]
      · simp [List.filter_cons, c10good, hs, ih]

/-- A candidate set with two observed `ARP_FF` pairs (names 7, 8) and one
observed `ARP_RF` pair (name 9); every read has sequence and quality data
present, so the name-9 reads are skipped by the output paths solely for
their flag mismatch with the dominant flag `ARP_FF`. -/
def c10reads : List BDRead :=
  [svread 7 ARP_FF, svread 7 ARP_FF, svread 8 ARP_FF, svread 8 ARP_FF,
   svread 9 ARP_RF, svread 9 ARP_RF]

/-- Claim C10 counterexample: on `c10reads` the dominant flag is `ARP_FF`
and the name-9 `ARP_RF` read is a supporting read with non-empty sequence
and quality data that the output paths skip solely because its flag
differs from the dominant flag - yet the reported pair count of the
emitted SV, `flag_counts[svb.flag]` (line 480), is exactly the same with
the whole `ARP_RF` pair removed from the candidate set: flag-mismatched
skipped reads contribute nothing to the reported pair count, refuting the
claim that every skipped read contributes to it. -/
theorem c10_counterexample :
    dominantFlag c10reads = ARP_FF
    ∧ support_read_skip ARP_FF (svread 9 ARP_RF) = true
    ∧ (svread 9 ARP_RF).seq_empty = false
    ∧ (svread 9 ARP_RF).qual_empty = false
    ∧ (svread 9 ARP_RF) ∈ c10reads
    ∧ flagCounts c10reads ARP_FF
        = flagCounts
            [svread 7 ARP_FF, svread 7 ARP_FF, svread 8 ARP_FF, svread 8 ARP_FF]
            ARP_FF := by
  decide

/-- Claim C10 (amended): both the BED writer (line 516) and `dump_fastq`
(line 548) silently skip every supporting read whose query sequence is
empty, whose quality string is empty, or whose flag differs from the SV's
dominant flag - their outputs over any support list equal the outputs over
the list with all such reads removed.  Of the skipped reads, only those
skipped for empty sequence or quality data still contribute to the
reported pair count `flag_counts[svb.flag]`: that count (a function of
flags and query names alone) is unchanged when reads' sequence and quality
data are emptied, while a read whose flag differs from the dominant flag
is never among the reads tallied into it. -/
theorem c10_output_filters (flag : PairFlag) (reads : List BDRead) :
    bed_lines flag reads = bed_lines flag (reads.filter (c10good flag))
    ∧ dump_fastq flag reads = dump_fastq flag (reads.filter (c10good flag))
    ∧ flagCounts (reads.map stripSeqQual) flag = flagCounts reads flag
    ∧ (∀ y ∈ reads, y.bdflag ≠ flag →
        y ∉ reads.filter (fun r =>
          decide (r.bdflag = flag) && decide (2 ≤ nameCount reads r.query_name))) := by
  refine ⟨?_, ?_, ?_, ?_⟩
  · unfold bed_lines
    induction reads with
    | nil => rfl
    | cons y tl ih =>
        by_cases hs : support_read_skip flag y = true <;>
          simp [List.filter_cons, c10good, hs, List.filterMap_cons, ih]
  · unfold dump_fastq
    rw [fastq_fold_filter]
  · unfold flagCounts
    rw [List.filter_map]
    rw [List.length_map]
    congr 1
    refine congrArg List.length (List.filter_congr ?_)
    intro r hr
    simp [Function.comp, stripSeqQual, nameCount_strip]
  · intro y _ hne hmem
    rw [List.mem_filter] at hmem
    have hflag := hmem.2
    simp only [Bool.and_eq_true, decide_eq_true_eq] at hflag
    exact hne hflag.1

/-- Claim C10 amended-theorem witness: on the concrete `c10reads` support
list with dominant flag `ARP_FF`, the BED output equals the filtered
output, the count is insensitive to emptying sequence/quality data, and
the flag-mismatched name-9 read is not among the tallied reads. -/
theorem c10_output_filters_witness :
    bed_lines ARP_FF c10reads = bed_lines ARP_FF (c10reads.filter (c10good ARP_FF))
    ∧ flagCounts (c10reads.map stripSeqQual) ARP_FF = flagCounts c10reads ARP_FF
    ∧ (svread 9 ARP_RF) ∉ c10reads.filter (fun r =>
        decide (r.bdflag = ARP_FF) && decide (2 ≤ nameCount c10reads r.query_name)) :=
  ⟨(c10_output_filters ARP_FF c10reads).1,
   (c10_output_filters ARP_FF c10reads).2.2.1,
   (c10_output_filters ARP_FF c10reads).2.2.2 (svread 9 ARP_RF) (by decide) (by decide)⟩

/-- Oracles for the transcendental math used by `ComputeProbScore`:
`logQ` models `log`, `poissonTailQ` models
`cdf(complement(poisson(lambda), k))`, `chisqTailQ` models
`cdf(complement(chi_squared(df), x))` with `none` standing for a thrown
`std::exception`, and `zeroQ` models `ZERO = exp(LZERO)`
(BreakDancer.cpp lines 24-25).  Only the call structure around these
functions - never their numeric values - decides claim C7. -/
structure MathOracle where
  logQ : ℚ → ℚ
  poissonTailQ : ℚ → Int → ℚ
  chisqTailQ : Nat → ℚ → Option ℚ
  zeroQ : ℚ

/-- The per-library Kahan-compensated accumulation of `ComputeProbScore`
(BreakDancer.cpp lines 52-70): for each `(libindex, readcount)` entry,
`lambda = max(1e-10, total_region_size * (read_count_for_flag / covered_reference_length))`,
`tmp_a = log(tail) - err`, `tmp_b = logpvalue + tmp_a`,
`err = (tmp_b - logpvalue) - tmp_a`.  `flag_dist` maps the library index
to its genome-wide `read_counts_by_flag[type]`, divided by
`covered_length` exactly as in line 62. -/
def probLoop (O : MathOracle) (total_region_size : Int) (covered_length : ℚ)
    (flag_dist : Nat → ℚ) (libCounts : List (Nat × Int)) : ℚ :=
  (libCounts.foldl
    (fun acc lc =>
      let lambda0 : ℚ := (total_region_size : ℚ) * (flag_dist lc.1 / covered_length)
      let lambda : ℚ := max (1 / 10000000000) lambda0
      let tmp_a : ℚ := O.logQ (O.poissonTailQ lambda lc.2) - acc.2
      let tmp_b : ℚ := acc.1 + tmp_a
      let err : ℚ := (tmp_b - acc.1) - tmp_a
      (tmp_b, err))
    ((0 : ℚ), (0 : ℚ))).1

/-- `ComputeProbScore` (BreakDancer.cpp lines 44-85): the Kahan loop
followed by the Fisher step of lines 72-82 - applied only when `fisher`
is set and `logpvalue < 0`; the chi-squared right tail at `-2*logpvalue`
with `2n` degrees of freedom replaces `logpvalue` by its log, clamped to
`LZERO = -99` when the tail is not greater than `ZERO`; a thrown
chi-squared exception (`chisqTailQ = none`) is caught, a diagnostic is
printed (the returned Bool) and the pre-Fisher value is kept. -/
def ComputeProbScore (O : MathOracle) (total_region_size : Int) (covered_length : ℚ)
    (flag_dist : Nat → ℚ) (libCounts : List (Nat × Int)) (fisher : Bool) : ℚ × Bool :=
  let logpvalue : ℚ := probLoop O total_region_size covered_length flag_dist libCounts
  if fisher = true ∧ logpvalue < 0 then
    match O.chisqTailQ (2 * libCounts.length) (-2 * logpvalue) with
    | some fisherP => (if fisherP > O.zeroQ then O.logQ fisherP else (-99 : ℚ), false)
    | none => (logpvalue, true)
  else (logpvalue, false)

/-- Claim C7: `ComputeProbScore` applies the Fisher combination only when
the `fisher` option is set and the accumulated `logpvalue` is negative
(otherwise the loop value is returned unchanged with no diagnostic); when
applied and the chi-squared right tail is not greater than
`ZERO = exp(-99)` the result is clamped to `LZERO = -99`; when the tail
exceeds `ZERO` its log is returned; and when the chi-squared evaluation
throws, a diagnostic is printed and the pre-Fisher `logpvalue` is returned
unchanged. -/
theorem c7_fisher_guard_clamp_fallback (O : MathOracle) (trs : Int) (cov : ℚ)
    (fd : Nat → ℚ) (lcs : List (Nat × Int)) (fisher : Bool) :
    (¬ (fisher = true ∧ probLoop O trs cov fd lcs < 0) →
       ComputeProbScore O trs cov fd lcs fisher = (probLoop O trs cov fd lcs, false))
    ∧ (∀ p, fisher = true → probLoop O trs cov fd lcs < 0 →
        O.chisqTailQ (2 * lcs.length) (-2 * probLoop O trs cov fd lcs) = some p →
        ¬ (p > O.zeroQ) →
        ComputeProbScore O trs cov fd lcs fisher = (-99, false))
    ∧ (∀ p, fisher = true → probLoop O trs cov fd lcs < 0 →
        O.chisqTailQ (2 * lcs.length) (-2 * probLoop O trs cov fd lcs) = some p →
        p > O.zeroQ →
        ComputeProbScore O trs cov fd lcs fisher = (O.logQ p, false))
    ∧ (fisher = true → probLoop O trs cov fd lcs < 0 →
        O.chisqTailQ (2 * lcs.length) (-2 * probLoop O trs cov fd lcs) = none →
        ComputeProbScore O trs cov fd lcs fisher = (probLoop O trs cov fd lcs, true)) := by
  refine ⟨?_, ?_, ?_, ?_⟩
  · intro h
    unfold ComputeProbScore
    rw [if_neg h]
  · intro p hf hneg hchi hple
    unfold ComputeProbScore
    rw [if_pos ⟨hf, hneg⟩, hchi]
    dsimp only
    rw [if_neg hple]
  · intro p hf hneg hchi hpgt
    unfold ComputeProbScore
    rw [if_pos ⟨hf, hneg⟩, hchi]
    dsimp only
    rw [if_pos hpgt]
  · intro hf hneg hchi
    unfold ComputeProbScore
    rw [if_pos ⟨hf, hneg⟩, hchi]

/-- A concrete oracle whose log is constantly -1 and whose chi-squared
tail is constantly -1 (forcing the underflow clamp). -/
def c7oracle1 : MathOracle := ⟨fun _ => -1, fun _ _ => 1, fun _ _ => some (-1), 0⟩

/-- A concrete oracle whose chi-squared evaluation always throws. -/
def c7oracle2 : MathOracle := ⟨fun _ => -1, fun _ _ => 1, fun _ _ => none, 0⟩

/-- Claim C7 witness: with one library and a negative loop value, the
underflowing oracle yields the clamp `-99`, the throwing oracle keeps the
pre-Fisher value and reports a diagnostic, and with `fisher` unset the
loop value passes through. -/
theorem c7_fisher_guard_clamp_fallback_witness :
    ComputeProbScore c7oracle1 1 1 (fun _ => 1) [(0, 1)] true = (-99, false)
    ∧ ComputeProbScore c7oracle2 1 1 (fun _ => 1) [(0, 1)] true
        = (probLoop c7oracle2 1 1 (fun _ => 1) [(0, 1)], true)
    ∧ ComputeProbScore c7oracle1 1 1 (fun _ => 1) [(0, 1)] false
        = (probLoop c7oracle1 1 1 (fun _ => 1) [(0, 1)], false) := by
  have hneg1 : probLoop c7oracle1 1 1 (fun _ => 1) [(0, 1)] < 0 := by
    norm_num [probLoop, c7oracle1]
  have hneg2 : probLoop c7oracle2 1 1 (fun _ => 1) [(0, 1)] < 0 := by
    norm_num [probLoop, c7oracle2]
  refine ⟨?_, ?_, ?_⟩
  · exact (c7_fisher_guard_clamp_fallback c7oracle1 1 1 (fun _ => 1) [(0, 1)] true).2.1
      (-1) rfl hneg1 rfl (by norm_num [c7oracle1])
  · exact (c7_fisher_guard_clamp_fallback c7oracle2 1 1 (fun _ => 1) [(0, 1)] true).2.2.2
      rfl hneg2 rfl
  · exact (c7_fisher_guard_clamp_fallback c7oracle1 1 1 (fun _ => 1) [(0, 1)] false).1
      (by simp)

/-- An adjacency map of `ReadRegionData::Subgraph` (`map<int,int>`:
neighbor region id -> edge weight), as an association list in map
iteration order. -/
abbrev Adj := List (Nat × Nat)

/-- The region graph `ReadRegionData::Graph` (`map<int, Subgraph>`), as an
association list in map iteration order.  `ReadRegionData` is not under
src/; the container shape follows spec section 3 (RegionGraph) and
section 9. -/
abbrev GraphL := List (Nat × Adj)

/-- `graph.find(k)`: the first entry with key `k`, if any. -/
def lookupAdj : GraphL → Nat → Option Adj
  | [], _ => none
  | e :: tl, k => if e.1 = k then some e.2 else lookupAdj tl k

/-- The weight of edge `t -> s` in `g` (0 when absent). -/
def weightOf (g : GraphL) (t s : Nat) : Nat :=
  ((((lookupAdj g t).getD []).find? (fun p => p.1 = s)).map (fun p => p.2)).getD 0

/-- `g[t].erase(s)` on an existing entry: remove neighbor `s` from the
adjacency of `t` (`graph_tail.erase(ii_graph_tail++)` at line 322 and the
inner erase of line 332). -/
def eraseEdge : GraphL → Nat → Nat → GraphL
  | [], _, _ => []
  | e :: tl, t, s =>
      (if e.1 = t then (e.1, e.2.filter (fun p => !(p.1 == s))) else e) :: eraseEdge tl t s

/-- `graph[s1].erase(tail)` (BreakDancer.cpp line 332): C++
`operator[]` default-constructs an empty adjacency when `s1` is absent,
so an absent key is appended with an empty adjacency before the erase
(which then does nothing). -/
def bracketEraseEdge (g : GraphL) (t s : Nat) : GraphL :=
  if (lookupAdj g t).isSome then eraseEdge g t s else g ++ [(t, [])]

/-- `graph.erase(tail)` (BreakDancer.cpp lines 344, 347): remove the
whole entry. -/
def eraseKey : GraphL → Nat → GraphL
  | [], _ => []
  | e :: tl, k => if e.1 = k then eraseKey tl k else e :: eraseKey tl k

/-- `graph.begin()`: the first key in iteration order. -/
def firstKey (g : GraphL) : Option Nat :=
  g.head?.map (fun e => e.1)

/-- Iterator increment from the entry with key `k`: the key of the next
entry in iteration order (`ii_graph++` / `++ii_graph`). -/
def nextKeyAfter : GraphL → Nat → Option Nat
  | [], _ => none
  | e :: tl, k => if e.1 = k then firstKey tl else nextKeyAfter tl k

/-- Whether edge `t -> s` is present in `g` (proof device). -/
def edgePresent (g : GraphL) (t s : Nat) : Bool :=
  ((lookupAdj g t).getD []).any (fun p => p.1 == s)

-- primitive lemmas

lemma lookupAdj_eraseEdge (g : GraphL) (t s k : Nat) :
    lookupAdj (eraseEdge g t s) k
      = if k = t then (lookupAdj g k).map (fun a => a.filter (fun p => !(p.1 == s)))
        else lookupAdj g k := by
  induction g with
  | nil => simp [eraseEdge, lookupAdj]
  | cons e tl ih =>
      rw [eraseEdge]
      by_cases hkt : k = t
      · subst hkt
        by_cases hek : e.1 = k <;> simp [lookupAdj, hek, ih]
      · have htk : ¬ t = k := fun h => hkt h.symm
        by_cases het : e.1 = t <;> by_cases hek : e.1 = k <;>
          simp [lookupAdj, het, hek, hkt, htk, ih]

lemma lookupAdj_eraseKey (g : GraphL) (k a : Nat) :
    lookupAdj (eraseKey g k) a = if a = k then none else lookupAdj g a := by
  induction g with
  | nil => simp [eraseKey, lookupAdj]
  | cons e tl ih =>
      rw [eraseKey]
      by_cases hak : a = k
      · subst hak
        by_cases hek : e.1 = a <;> simp [lookupAdj, hek, ih]
      · have hka : ¬ k = a := fun h => hak h.symm
        by_cases hek : e.1 = k <;> by_cases hea : e.1 = a <;>
          simp [lookupAdj, hek, hea, hak, hka, ih]

lemma lookupAdj_append_some (g1 g2 : GraphL) (a : Nat) (x : Adj)
    (h : lookupAdj g1 a = some x) : lookupAdj (g1 ++ g2) a = some x := by
  induction g1 with
  | nil => simp [lookupAdj] at h
  | cons e tl ih =>
      by_cases hea : e.1 = a
      · simp [lookupAdj, hea] at h ⊢
        exact h
      · simp [lookupAdj, hea] at h ⊢
        exact ih h

lemma lookupAdj_append_none (g1 g2 : GraphL) (a : Nat)
    (h : lookupAdj g1 a = none) : lookupAdj (g1 ++ g2) a = lookupAdj g2 a := by
  induction g1 with
  | nil => simp [lookupAdj]
  | cons e tl ih =>
      by_cases hea : e.1 = a
      · simp [lookupAdj, hea] at h
      · simp [lookupAdj, hea] at h ⊢
        exact ih h

lemma any_filter_not (a : Adj) (s : Nat) :
    (a.filter (fun p => !(p.1 == s))).any (fun p => p.1 == s) = false := by
  induction a with
  | nil => rfl
  | cons p tl ih =>
      rw [List.filter_cons]
      by_cases hp : (p.1 == s) = true
      · rw [hp]
        simp [ih]
      · have hb : (!(p.1 == s)) = true := by simp [hp]
        rw [hb]
        simp only [if_true, List.any_cons, hp, Bool.false_or]
        exact ih

lemma any_filter_mono (a : Adj) (q : Nat × Nat → Bool) (s : Nat)
    (h : a.any (fun p => p.1 == s) = false) :
    (a.filter q).any (fun p => p.1 == s) = false := by
  induction a with
  | nil => rfl
  | cons p tl ih =>
      rw [List.any_cons, Bool.or_eq_false_iff] at h
      rw [List.filter_cons]
      by_cases hq : q p = true
      · rw [if_pos hq, List.any_cons, h.1, Bool.false_or]
        exact ih h.2
      · rw [if_neg hq]
        exact ih h.2

lemma edgePresent_eraseEdge_self (g : GraphL) (t s : Nat) :
    edgePresent (eraseEdge g t s) t s = false := by
  unfold edgePresent
  rw [lookupAdj_eraseEdge, if_pos rfl]
  cases hl : lookupAdj g t with
  | none => rfl
  | some a => simp [any_filter_not a s]

lemma edgePresent_eraseEdge_mono (g : GraphL) (t s x y : Nat)
    (h : edgePresent g x y = false) : edgePresent (eraseEdge g t s) x y = false := by
  unfold edgePresent at h ⊢
  rw [lookupAdj_eraseEdge]
  by_cases hxt : x = t
  · rw [if_pos hxt]
    subst hxt
    cases hl : lookupAdj g x with
    | none => rfl
    | some a =>
        rw [hl] at h
        simp only [Option.getD_some] at h
        simp only [Option.map_some', Option.getD_some]
        exact any_filter_mono a _ y h
  · rw [if_neg hxt]
    exact h

lemma edgePresent_eraseKey_mono (g : GraphL) (k x y : Nat)
    (h : edgePresent g x y = false) : edgePresent (eraseKey g k) x y = false := by
  unfold edgePresent at h ⊢
  rw [lookupAdj_eraseKey]
  by_cases hxk : x = k
  · rw [if_pos hxk]; rfl
  · rw [if_neg hxk]; exact h

lemma edgePresent_bracket_mono (g : GraphL) (t s x y : Nat)
    (h : edgePresent g x y = false) : edgePresent (bracketEraseEdge g t s) x y = false := by
  unfold bracketEraseEdge
  split_ifs with hp
  · exact edgePresent_eraseEdge_mono g t s x y h
  · unfold edgePresent at h ⊢
    cases hl : lookupAdj g x with
    | some a =>
        rw [lookupAdj_append_some g [(t, [])] x a hl]
        rw [hl] at h
        exact h
    | none =>
        rw [lookupAdj_append_none g [(t, [])] x hl]
        by_cases hxt : t = x <;> simp [lookupAdj, hxt]

def SnapSub (init g : GraphL) : Prop :=
  ∀ e ∈ g, ∀ p ∈ e.2, weightOf init e.1 p.1 = p.2

lemma snapSub_eraseEdge (init g : GraphL) (t s : Nat) (h : SnapSub init g) :
    SnapSub init (eraseEdge g t s) := by
  induction g with
  | nil => intro e he; simp [eraseEdge] at he
  | cons e tl ih =>
      intro e' he' p hp
      rw [eraseEdge] at he'
      rcases List.mem_cons.mp he' with heq | hmem
      · subst heq
        by_cases het : e.1 = t
        · rw [if_pos het] at hp ⊢
          exact h e (List.mem_cons_self e tl) p (List.mem_of_mem_filter hp)
        · rw [if_neg het] at hp ⊢
          exact h e (List.mem_cons_self e tl) p hp
      · exact ih (fun x hx => h x (List.mem_cons_of_mem e hx)) e' hmem p hp

lemma snapSub_eraseKey (init g : GraphL) (k : Nat) (h : SnapSub init g) :
    SnapSub init (eraseKey g k) := by
  induction g with
  | nil => intro e he; simp [eraseKey] at he
  | cons e tl ih =>
      intro e' he' p hp
      rw [eraseKey] at he'
      split_ifs at he' with hek
      · exact ih (fun x hx => h x (List.mem_cons_of_mem e hx)) e' he' p hp
      · rcases List.mem_cons.mp he' with heq | hmem
        · subst heq
          exact h e' (List.mem_cons_self e' tl) p hp
        · exact ih (fun x hx => h x (List.mem_cons_of_mem e hx)) e' hmem p hp

lemma snapSub_bracket (init g : GraphL) (t s : Nat) (h : SnapSub init g) :
    SnapSub init (bracketEraseEdge g t s) := by
  unfold bracketEraseEdge
  split_ifs with hp
  · exact snapSub_eraseEdge init g t s h
  · intro e he p hpp
    rcases List.mem_append.mp he with hg | hone
    · exact h e hg p hpp
    · have he2 : e = (t, []) := by simpa using hone
      rw [he2] at hpp
      simp at hpp

def WFGraph (g : GraphL) : Prop :=
  (g.map (fun e => e.1)).Nodup ∧ ∀ e ∈ g, (e.2.map (fun p => p.1)).Nodup

lemma lookupAdj_of_nodup (g : GraphL) (hnd : (g.map (fun e => e.1)).Nodup)
    (e : Nat × Adj) (he : e ∈ g) : lookupAdj g e.1 = some e.2 := by
  induction g with
  | nil => simp at he
  | cons a tl ih =>
      rcases List.mem_cons.mp he with heq | hmem
      · subst heq
        simp [lookupAdj]
      · have hne : a.1 ≠ e.1 := by
          intro hcontra
          have : e.1 ∈ tl.map (fun x => x.1) := List.mem_map_of_mem _ hmem
          rw [← hcontra] at this
          exact (List.nodup_cons.mp hnd).1 this
        rw [lookupAdj, if_neg hne]
        exact ih (List.nodup_cons.mp hnd).2 hmem

lemma find_pair_of_nodup (l : Adj) (hnd : (l.map (fun p => p.1)).Nodup)
    (p : Nat × Nat) (hp : p ∈ l) : l.find? (fun q => q.1 = p.1) = some p := by
  induction l with
  | nil => simp at hp
  | cons a tl ih =>
      rcases List.mem_cons.mp hp with heq | hmem
      · subst heq
        simp [List.find?]
      · have hne : a.1 ≠ p.1 := by
          intro hcontra
          have : p.1 ∈ tl.map (fun x => x.1) := List.mem_map_of_mem _ hmem
          rw [← hcontra] at this
          exact (List.nodup_cons.mp hnd).1 this
        rw [List.find?]
        simp only [hne, decide_eq_true_eq, decide_False]
        exact ih (List.nodup_cons.mp hnd).2 hmem

lemma snapSub_init (g : GraphL) (hWF : WFGraph g) : SnapSub g g := by
  intro e he p hp
  unfold weightOf
  rw [lookupAdj_of_nodup g hWF.1 e he]
  simp only [Option.getD_some]
  rw [find_pair_of_nodup e.2 (hWF.2 e he) p hp]
  rfl

lemma head_adj_mem (g : GraphL) (tail : Nat) (a : Adj)
    (h : lookupAdj g tail = some a) : ∃ e ∈ g, e.1 = tail ∧ e.2 = a := by
  induction g with
  | nil => simp [lookupAdj] at h
  | cons e tl ih =>
      by_cases het : e.1 = tail
      · rw [lookupAdj, if_pos het] at h
        exact ⟨e, List.mem_cons_self e tl, het, by injection h⟩
      · rw [lookupAdj, if_neg het] at h
        obtain ⟨x, hx, h1, h2⟩ := ih h
        exact ⟨x, List.mem_cons_of_mem e hx, h1, h2⟩

/-- The slice of `_rdata` that `build_connection` consults: the set of
existing region ids (`region_exists`) and the live region graph
(`region_graph()`), of which `build_connection` takes a copy at entry
(`Graph graph(_rdata.region_graph())`, line 290). -/
structure BCStore where
  alive : List Nat
  sgraph : GraphL
deriving DecidableEq, Repr

/-- `_rdata.region_exists(i)` (callee in ReadRegionData, not under src/;
modelled from the spec as membership in the live region-id set). -/
def region_exists (st : BCStore) (i : Nat) : Bool := st.alive.contains i

/-- Instrumentation record for one consumed adjacency entry of the
traversal: the directed edge `(tail, s1)`, the weight `nlinks` read from
the working graph at the visit (line 320), the weight the LIVE store graph
holds for that edge at the same moment (`liveW`, recorded only to state
claim C3), and whether the edge passed the line 326 test so that
`process_sv` was invoked. -/
structure Visit where
  tail : Nat
  s1 : Nat
  nlinks : Nat
  liveW : Nat
  passed : Bool
deriving DecidableEq, Repr

/-- The traversal state of `build_connection`: the local working copy
`graph` (line 290), the live store, the visit trace (instrumentation), the
outer iterator `ii_graph` as the key it points to (`none` = `end()`), and
the `need_iter_increment` flag (line 299). -/
structure TravState where
  lgraph : GraphL
  store : BCStore
  trace : List Visit
  cursor : Option Nat
  needInc : Bool
deriving DecidableEq, Repr

/-- The effect of one `process_sv(snodes, ...)` call on the store, kept
abstract for claim C3: per spec section 4.4, `process_sv` may erase store
edges touching either endpoint when reads are consumed; per the spec
resource model (section 5) it frees no region during the traversal. -/
abbrev SvEffect := List Nat → BCStore → BCStore

/-- The inner `while (ii_graph_tail != graph_tail.end())` loop of
`build_connection` (BreakDancer.cpp lines 317-341): consume the first
remaining adjacency entry `(s1, nlinks)` of `tail` (line 322), skip it
when `nlinks < min_read_pair` or `s1` no longer exists (line 326),
otherwise erase the reverse edge via `graph[s1].erase(tail)` when
`tail != s1`, form `snodes`, push `s1` onto `newtails` and invoke
`process_sv` (lines 331-340).  Fuel-based recursion; each visited entry is
also recorded in the trace. -/
def drainTail (oracle : SvEffect) (mrp tail : Nat) : Nat → TravState → TravState × List Nat
  | 0, st => (st, [])
  | fuel+1, st =>
    match (lookupAdj st.lgraph tail).getD [] with
    | [] => (st, [])
    | (s1, nlinks) :: _ =>
      let st1 : TravState := { st with lgraph := eraseEdge st.lgraph tail s1 }
      let live : Nat := weightOf st1.store.sgraph tail s1
      if nlinks < mrp ∨ region_exists st1.store s1 = false then
        drainTail oracle mrp tail fuel
          { st1 with trace := st1.trace ++ [⟨tail, s1, nlinks, live, false⟩] }
      else
        let st2 : TravState :=
          if tail ≠ s1 then { st1 with lgraph := bracketEraseEdge st1.lgraph s1 tail } else st1
        let snodes : List Nat := if tail ≠ s1 then [min s1 tail, max s1 tail] else [s1]
        let st3 : TravState := { st2 with
          trace := st2.trace ++ [⟨tail, s1, nlinks, live, true⟩],
          store := oracle snodes st2.store }
        let res := drainTail oracle mrp tail fuel st3
        (res.1, s1 :: res.2)

/-- The body of the `for (it_tails ...)` loop for one `tail`
(BreakDancer.cpp lines 303-348): the `region_exists` guard (line 308), the
`graph.find(tail)` guard (lines 312-314), the adjacency drain, and the
entry erasure - `graph.erase(ii_graph++)` with cursor advance and
`need_iter_increment = false` when `tail` is the outer iterator's key
(lines 342-345), plain `graph.erase(tail)` otherwise (line 347). -/
def processOneTail (oracle : SvEffect) (mrp fuel tail : Nat) (st : TravState) :
    TravState × List Nat :=
  if region_exists st.store tail = false then (st, [])
  else
    match lookupAdj st.lgraph tail with
    | none => (st, [])
    | some _ =>
      let res := drainTail oracle mrp tail fuel st
      let st1 := res.1
      if st1.cursor = some tail then
        ({ st1 with cursor := nextKeyAfter st1.lgraph tail,
                    lgraph := eraseKey st1.lgraph tail, needInc := false }, res.2)
      else
        ({ st1 with lgraph := eraseKey st1.lgraph tail }, res.2)

/-- One pass of the `for` loop over `tails` (line 303), accumulating
`newtails` in order. -/
def processLevel (oracle : SvEffect) (mrp fuel : Nat) :
    List Nat → TravState → TravState × List Nat
  | [], st => (st, [])
  | t :: ts, st =>
    let r1 := processOneTail oracle mrp fuel t st
    let r2 := processLevel oracle mrp fuel ts r1.1
    (r2.1, r1.2 ++ r2.2)

/-- The `while (tails.size() > 0)` loop (lines 300-351):
`tails.swap(newtails)` after each level.  Fuel-based. -/
def processFrontier (oracle : SvEffect) (mrp fuel : Nat) :
    Nat → List Nat → TravState → TravState
  | 0, _, st => st
  | _+1, [], st => st
  | f+1, t :: ts, st =>
    let r := processLevel oracle mrp fuel (t :: ts) st
    processFrontier oracle mrp fuel f r.2 r.1

/-- The outer `while (ii_graph != graph.end())` loop (lines 296-354):
seed the frontier with the cursor's key, run it, and `++ii_graph` when
`need_iter_increment` survived.  Fuel-based. -/
def outerLoop (oracle : SvEffect) (mrp fuel : Nat) : Nat → TravState → TravState
  | 0, st => st
  | f+1, st =>
    match st.cursor with
    | none => st
    | some k =>
      let st1 := processFrontier oracle mrp fuel fuel [k] { st with needInc := true }
      let st2 : TravState := if st1.needInc
        then { st1 with cursor := nextKeyAfter st1.lgraph k } else st1
      outerLoop oracle mrp fuel f st2

/-- `BreakDancer::build_connection` (BreakDancer.cpp lines 283-354)
restricted to the graph traversal: start from a copy of the store graph
with the iterator at `begin()`.  The final region-freeing pass over
`free_nodes` (lines 357-365) touches neither the traversal nor any trace
and is not modelled here; `mrp` is `_opts.min_read_pair`. -/
def build_connection (oracle : SvEffect) (mrp fuel : Nat) (store : BCStore) : TravState :=
  outerLoop oracle mrp fuel fuel
    ⟨store.sgraph, store, [], firstKey store.sgraph, true⟩

/-- The traversal invariant behind claim C3: regions are unchanged, the
working graph is weight-faithful to the entry snapshot, visited directed
edges are pairwise distinct and never re-enter the working graph, and
every recorded visit carries the snapshot weight and (when passed) two
existing endpoints. -/
structure BCInv (init : BCStore) (st : TravState) : Prop where
  aliveEq : st.store.alive = init.alive
  snap : SnapSub init.sgraph st.lgraph
  nodup : (st.trace.map (fun v => (v.tail, v.s1))).Nodup
  absent : ∀ v ∈ st.trace, edgePresent st.lgraph v.tail v.s1 = false
  okVisit : ∀ v ∈ st.trace,
    (v.passed = true → region_exists init v.tail = true ∧ region_exists init v.s1 = true)
    ∧ v.nlinks = weightOf init.sgraph v.tail v.s1

lemma BCInv_visit (init : BCStore) (st : TravState) (h : BCInv init st)
    (tail s1 nlinks live : Nat) (passed : Bool)
    (hpres : edgePresent st.lgraph tail s1 = true)
    (hW : weightOf init.sgraph tail s1 = nlinks)
    (hok : passed = true → region_exists init tail = true ∧ region_exists init s1 = true) :
    BCInv init { st with lgraph := eraseEdge st.lgraph tail s1,
                         trace := st.trace ++ [⟨tail, s1, nlinks, live, passed⟩] } := by
  refine ⟨h.aliveEq, snapSub_eraseEdge _ _ _ _ h.snap, ?_, ?_, ?_⟩
  · dsimp only
    rw [List.map_append]
    refine List.Nodup.append h.nodup (by simp) ?_
    intro x hx hx2
    simp only [List.map_cons, List.map_nil, List.mem_singleton] at hx2
    subst hx2
    obtain ⟨v', hv', hpair⟩ := List.mem_map.mp hx
    have habs := h.absent v' hv'
    have h1 : v'.tail = tail := congrArg Prod.fst hpair
    have h2 : v'.s1 = s1 := congrArg Prod.snd hpair
    rw [h1, h2] at habs
    rw [habs] at hpres
    exact Bool.false_ne_true hpres
  · intro v' hv'
    dsimp only at hv' ⊢
    rcases List.mem_append.mp hv' with hold | hnew
    · exact edgePresent_eraseEdge_mono _ _ _ _ _ (h.absent v' hold)
    · rw [List.mem_singleton] at hnew
      subst hnew
      exact edgePresent_eraseEdge_self _ _ _
  · intro v' hv'
    dsimp only at hv'
    rcases List.mem_append.mp hv' with hold | hnew
    · exact h.okVisit v' hold
    · rw [List.mem_singleton] at hnew
      subst hnew
      exact ⟨hok, hW.symm⟩

lemma drainTail_inv (oracle : SvEffect) (mrp tail : Nat) (init : BCStore)
    (hOr : ∀ sn s, (oracle sn s).alive = s.alive)
    (htail : region_exists init tail = true) :
    ∀ fuel st, BCInv init st → BCInv init (drainTail oracle mrp tail fuel st).1 := by
  intro fuel
  induction fuel with
  | zero => intro st h; exact h
  | succ f ih =>
      intro st h
      rcases hadj : (lookupAdj st.lgraph tail).getD [] with _ | ⟨⟨s1, nlinks⟩, rest⟩
      · simp only [drainTail, hadj]
        exact h
      · have hsome : lookupAdj st.lgraph tail = some ((s1, nlinks) :: rest) := by
          cases hl : lookupAdj st.lgraph tail with
          | none => rw [hl] at hadj; simp at hadj
          | some a => rw [hl] at hadj; simp only [Option.getD_some] at hadj; rw [hadj]
        have hpres : edgePresent st.lgraph tail s1 = true := by
          unfold edgePresent
          rw [hadj]
          simp
        have hW : weightOf init.sgraph tail s1 = nlinks := by
          obtain ⟨e, he, h1, h2⟩ := head_adj_mem _ _ _ hsome
          have hx := h.snap e he (s1, nlinks) (by rw [h2]; exact List.mem_cons_self _ _)
          rw [h1] at hx
          exact hx
        simp only [drainTail, hadj]
        by_cases hskip : nlinks < mrp ∨ region_exists st.store s1 = false
        · rw [if_pos hskip]
          exact ih _ (BCInv_visit init st h tail s1 nlinks
            (weightOf st.store.sgraph tail s1) false hpres hW
            (fun hf => absurd hf Bool.false_ne_true))
        · rw [if_neg hskip]
          have hs1 : region_exists init s1 = true := by
            rcases Bool.eq_false_or_eq_true (region_exists st.store s1) with htr | hfa
            · unfold region_exists at htr ⊢
              rw [← h.aliveEq]
              exact htr
            · exact absurd (Or.inr hfa) hskip
          have hv := BCInv_visit init st h tail s1 nlinks
            (weightOf st.store.sgraph tail s1) true hpres hW (fun _ => ⟨htail, hs1⟩)
          split_ifs with hts
          · dsimp only
            refine ih _ ?_
            refine ⟨?_, ?_, hv.nodup, ?_, hv.okVisit⟩
            · dsimp only
              rw [hOr]
              exact h.aliveEq
            · exact snapSub_bracket _ _ _ _ hv.snap
            · intro v' hv'
              exact edgePresent_bracket_mono _ _ _ _ _ (hv.absent v' hv')
          · dsimp only
            refine ih _ ?_
            refine ⟨?_, hv.snap, hv.nodup, hv.absent, hv.okVisit⟩
            dsimp only
            rw [hOr]
            exact h.aliveEq

lemma processOneTail_inv (oracle : SvEffect) (mrp fuel tail : Nat) (init : BCStore)
    (hOr : ∀ sn s, (oracle sn s).alive = s.alive)
    (st : TravState) (h : BCInv init st) :
    BCInv init (processOneTail oracle mrp fuel tail st).1 := by
  unfold processOneTail
  by_cases hex : region_exists st.store tail = false
  · rw [if_pos hex]
    exact h
  · rw [if_neg hex]
    have htail : region_exists init tail = true := by
      rcases Bool.eq_false_or_eq_true (region_exists st.store tail) with htr | hfa
      · unfold region_exists at htr ⊢
        rw [← h.aliveEq]
        exact htr
      · exact absurd hfa hex
    cases hl : lookupAdj st.lgraph tail with
    | none => exact h
    | some a =>
        have hd := drainTail_inv oracle mrp tail init hOr htail fuel st h
        dsimp only
        by_cases hc : (drainTail oracle mrp tail fuel st).1.cursor = some tail
        · rw [if_pos hc]
          refine ⟨hd.aliveEq, snapSub_eraseKey _ _ _ hd.snap, hd.nodup, ?_, hd.okVisit⟩
          intro v hv
          exact edgePresent_eraseKey_mono _ _ _ _ (hd.absent v hv)
        · rw [if_neg hc]
          refine ⟨hd.aliveEq, snapSub_eraseKey _ _ _ hd.snap, hd.nodup, ?_, hd.okVisit⟩
          intro v hv
          exact edgePresent_eraseKey_mono _ _ _ _ (hd.absent v hv)

lemma processLevel_inv (oracle : SvEffect) (mrp fuel : Nat) (init : BCStore)
    (hOr : ∀ sn s, (oracle sn s).alive = s.alive) :
    ∀ (tails : List Nat) (st : TravState), BCInv init st →
      BCInv init (processLevel oracle mrp fuel tails st).1 := by
  intro tails
  induction tails with
  | nil => intro st h; exact h
  | cons t ts ih =>
      intro st h
      simp only [processLevel]
      exact ih _ (processOneTail_inv oracle mrp fuel t init hOr st h)

lemma processFrontier_inv (oracle : SvEffect) (mrp fuel : Nat) (init : BCStore)
    (hOr : ∀ sn s, (oracle sn s).alive = s.alive) :
    ∀ (f : Nat) (tails : List Nat) (st : TravState), BCInv init st →
      BCInv init (processFrontier oracle mrp fuel f tails st) := by
  intro f
  induction f with
  | zero => intro tails st h; exact h
  | succ f2 ih =>
      intro tails st h
      cases tails with
      | nil => exact h
      | cons t ts =>
          simp only [processFrontier]
          exact ih _ _ (processLevel_inv oracle mrp fuel init hOr (t :: ts) st h)

lemma outerLoop_inv (oracle : SvEffect) (mrp fuel : Nat) (init : BCStore)
    (hOr : ∀ sn s, (oracle sn s).alive = s.alive) :
    ∀ (f : Nat) (st : TravState), BCInv init st →
      BCInv init (outerLoop oracle mrp fuel f st) := by
  intro f
  induction f with
  | zero => intro st h; exact h
  | succ f2 ih =>
      intro st h
      cases hc : st.cursor with
      | none =>
          simp only [outerLoop, hc]
          exact h
      | some k =>
          simp only [outerLoop, hc]
          have h1 : BCInv init ⟨st.lgraph, st.store, st.trace, some k, true⟩ :=
            ⟨h.aliveEq, h.snap, h.nodup, h.absent, h.okVisit⟩
          have h2 := processFrontier_inv oracle mrp fuel init hOr fuel [k] _ h1
          split_ifs with hni
          · exact ih _ ⟨h2.aliveEq, h2.snap, h2.nodup, h2.absent, h2.okVisit⟩
          · exact ih _ h2

/-- Three regions, with weight-2 edges 1-2 and 1-3 (symmetric). -/
def c3store : BCStore := ⟨[1, 2, 3], [(1, [(2, 2), (3, 2)]), (2, [(1, 2)]), (3, [(1, 2)])]⟩

/-- A `process_sv` effect that, when called on the node set `[1, 2]`,
erases the store edges between regions 1 and 3 (both directions) - the
kind of mutation spec section 4.4 says the traversal must tolerate. -/
def c3oracle : SvEffect := fun sn s =>
  if sn = [1, 2] then { s with sgraph := eraseEdge (eraseEdge s.sgraph 1 3) 3 1 } else s

lemma c3oracle_alive : ∀ sn s, (c3oracle sn s).alive = s.alive := by
  intro sn s
  unfold c3oracle
  split_ifs <;> rfl

/-- Claim C3 counterexample: on `c3store` with `min_read_pair = 2` and
the edge-erasing `process_sv` effect `c3oracle`, the edge (1,3) is visited
and passed to `process_sv` with compared weight `nlinks = 2` taken from
the entry snapshot, although `process_sv` has already erased that edge
from the live store graph (live weight 0).  This refutes the claim that
the weight compared against `min_read_pair` is re-read from the live
graph reflecting the erasures `process_sv` has made. -/
theorem c3_counterexample :
    ¬ (∀ v ∈ (build_connection c3oracle 2 20 c3store).trace,
        v.passed = true → v.nlinks = v.liveW) := by
  decide

/-- Claim C3 (amended): during `build_connection` every directed edge is
visited at most once; when an edge `(t, s)` is passed to `process_sv`,
both endpoint regions still exist in the region store (given that
`process_sv` frees no region during the traversal, per the spec resource
model); and the weight compared against `min_read_pair` is the weight
recorded in the snapshot of the graph taken at `build_connection` entry -
the working copy only ever loses edges, and erasures made by `process_sv`
to the live store are NOT reflected in the compared weight.  `hWF` states
that the store graph is a well-formed map (no duplicate keys). -/
theorem c3_traversal_contract (oracle : SvEffect) (mrp fuel : Nat) (store : BCStore)
    (hWF : WFGraph store.sgraph)
    (hOr : ∀ sn s, (oracle sn s).alive = s.alive) :
    ((build_connection oracle mrp fuel store).trace.map (fun v => (v.tail, v.s1))).Nodup
    ∧ (∀ v ∈ (build_connection oracle mrp fuel store).trace, v.passed = true →
        region_exists store v.tail = true ∧ region_exists store v.s1 = true)
    ∧ (∀ v ∈ (build_connection oracle mrp fuel store).trace,
        v.nlinks = weightOf store.sgraph v.tail v.s1) := by
  have h0 : BCInv store ⟨store.sgraph, store, [], firstKey store.sgraph, true⟩ := by
    refine ⟨rfl, snapSub_init store.sgraph hWF, ?_, ?_, ?_⟩
    · simp
    · intro v hv
      simp at hv
    · intro v hv
      simp at hv
  have h := outerLoop_inv oracle mrp fuel store hOr fuel _ h0
  exact ⟨h.nodup, fun v hv hp => (h.okVisit v hv).1 hp, fun v hv => (h.okVisit v hv).2⟩

/-- Claim C3 amended-theorem witness: the contract instantiated on the
concrete `c3store` / `c3oracle` run (the same run as the counterexample),
whose store graph is well-formed and whose oracle preserves the region
set. -/
theorem c3_traversal_contract_witness :
    ((build_connection c3oracle 2 20 c3store).trace.map (fun v => (v.tail, v.s1))).Nodup
    ∧ (∀ v ∈ (build_connection c3oracle 2 20 c3store).trace, v.passed = true →
        region_exists c3store v.tail = true ∧ region_exists c3store v.s1 = true)
    ∧ (∀ v ∈ (build_connection c3oracle 2 20 c3store).trace,
        v.nlinks = weightOf c3store.sgraph v.tail v.s1) :=
  c3_traversal_contract c3oracle 2 20 c3store (by constructor <;> decide) c3oracle_alive

end Breakdancer
